import Mathlib

/-!
Verification of the keepkey-ollama client library core
(src/index.ts, src/browser.ts, src/utils.ts).

The development shallowly embeds the streaming response pipeline
(line-delimited JSON decoding and the abortable async iterator), the
blob upload protocol (createBlob / checkOk), header construction
(fetchWithHeaders / head / post), host normalization (formatHost) and
the model-definition rewriter (parseModelfile / resolvePath).

Bytes are modelled as Nat, JS strings as List Char.  Platform
primitives (TextDecoder, URL, node streams, object spread) are
modelled explicitly where their behavior is observable.
-/

/- ### Generic list utilities (JS String.split / Array.pop / Array.join) -/

/-- Model of the JS s.split(sep) for a single-character separator:
always returns at least one (possibly empty) segment. -/
def splitOnCharL (sep : Char) : List Char → List (List Char)
  | [] => [[]]
  | c :: cs =>
    if c = sep then [] :: splitOnCharL sep cs
    else
      match splitOnCharL sep cs with
      | [] => [[c]]
      | p :: ps => (c :: p) :: ps

/-- Model of the JS array.join(sep) for a single-character separator. -/
def joinSepL (sep : Char) : List (List Char) → List Char
  | [] => []
  | [x] => x
  | x :: y :: ys => x ++ sep :: joinSepL sep (y :: ys)

/-- Concatenation of a list of lists. -/
def catLists {α : Type} : List (List α) → List α
  | [] => []
  | l :: ls => l ++ catLists ls

/-- The segments remaining after the JS parts.pop() call. -/
def segsButLast : List (List Char) → List (List Char)
  | [] => []
  | [_] => []
  | x :: y :: ys => x :: segsButLast (y :: ys)

/-- The segment returned by the JS parts.pop() call (empty when there is
none, matching the source's fallback to the empty string). -/
def segsLast : List (List Char) → List Char
  | [] => []
  | [x] => x
  | _ :: y :: ys => segsLast (y :: ys)

/-- Prepend a segment onto the head of a segment list. -/
def consHead (x : List Char) : List (List Char) → List (List Char)
  | [] => [x]
  | y :: ys => (x ++ y) :: ys

theorem splitOnCharL_ne_nil (sep : Char) (l : List Char) :
    splitOnCharL sep l ≠ [] := by
  cases l with
  | nil => simp [splitOnCharL]
  | cons c cs =>
    simp only [splitOnCharL]
    split
    · simp
    · cases h : splitOnCharL sep cs <;> simp

theorem consHead_ne_nil (x : List Char) (l : List (List Char)) :
    consHead x l ≠ [] := by
  cases l <;> simp [consHead]

theorem consHead_nil_of_ne_nil (l : List (List Char)) (h : l ≠ []) :
    consHead [] l = l := by
  cases l with
  | nil => exact absurd rfl h
  | cons y ys => simp [consHead]

theorem consHead_consHead (x y : List Char) (l : List (List Char)) :
    consHead x (consHead y l) = consHead (x ++ y) l := by
  cases l <;> simp [consHead]

theorem consHead_singleton (x y : List Char) : consHead x [y] = [x ++ y] := rfl

theorem splitOnCharL_cons_sep (sep : Char) (cs : List Char) :
    splitOnCharL sep (sep :: cs) = [] :: splitOnCharL sep cs := by
  simp [splitOnCharL]

theorem splitOnCharL_cons_ne (sep c : Char) (cs : List Char) (h : ¬ c = sep) :
    splitOnCharL sep (c :: cs) = consHead [c] (splitOnCharL sep cs) := by
  simp only [splitOnCharL, if_neg h]
  cases hs : splitOnCharL sep cs with
  | nil => exact absurd hs (splitOnCharL_ne_nil sep cs)
  | cons p ps => simp [consHead]

theorem segsButLast_cons_of_ne_nil (x : List Char) (l : List (List Char))
    (h : l ≠ []) : segsButLast (x :: l) = x :: segsButLast l := by
  cases l with
  | nil => exact absurd rfl h
  | cons y ys => rfl

theorem segsLast_cons_of_ne_nil (x : List Char) (l : List (List Char))
    (h : l ≠ []) : segsLast (x :: l) = segsLast l := by
  cases l with
  | nil => exact absurd rfl h
  | cons y ys => rfl

theorem splitOnCharL_append (sep : Char) (a b : List Char) :
    splitOnCharL sep (a ++ b) =
      segsButLast (splitOnCharL sep a) ++
        consHead (segsLast (splitOnCharL sep a)) (splitOnCharL sep b) := by
  induction a with
  | nil =>
    simp only [List.nil_append, splitOnCharL, segsButLast, segsLast]
    rw [consHead_nil_of_ne_nil _ (splitOnCharL_ne_nil sep b)]
  | cons c cs ih =>
    by_cases hc : c = sep
    · subst hc
      rw [List.cons_append, splitOnCharL_cons_sep, splitOnCharL_cons_sep,
        segsButLast_cons_of_ne_nil _ _ (splitOnCharL_ne_nil c cs),
        segsLast_cons_of_ne_nil _ _ (splitOnCharL_ne_nil c cs), ih]
      rfl
    · rw [List.cons_append, splitOnCharL_cons_ne sep c (cs ++ b) hc,
        splitOnCharL_cons_ne sep c cs hc, ih]
      cases hs : splitOnCharL sep cs with
      | nil => exact absurd hs (splitOnCharL_ne_nil sep cs)
      | cons p ps =>
        cases ps with
        | nil =>
          simp only [segsButLast, segsLast, List.nil_append,
            consHead_consHead, consHead_singleton]
        | cons q qs =>
          simp only [segsButLast, segsLast, consHead, List.cons_append]

theorem mem_splitOnCharL_not_mem (sep : Char) (l : List Char) :
    ∀ p ∈ splitOnCharL sep l, sep ∉ p := by
  induction l with
  | nil =>
    intro p hp
    simp [splitOnCharL] at hp
    simp [hp]
  | cons c cs ih =>
    intro p hp
    by_cases hc : c = sep
    · subst hc
      rw [splitOnCharL_cons_sep] at hp
      rcases List.mem_cons.mp hp with hp | hp
      · simp [hp]
      · exact ih p hp
    · rw [splitOnCharL_cons_ne sep c cs hc] at hp
      cases hs : splitOnCharL sep cs with
      | nil => exact absurd hs (splitOnCharL_ne_nil sep cs)
      | cons q qs =>
        rw [hs] at hp
        simp only [consHead, List.singleton_append, List.mem_cons] at hp
        rcases hp with hp | hp
        · subst hp
          intro hm
          rcases List.mem_cons.mp hm with hm | hm
          · exact hc hm.symm
          · exact ih q (by simp [hs]) hm
        · exact ih p (by simp [hs, hp])

theorem splitOnCharL_of_not_mem (sep : Char) (l : List Char) (h : sep ∉ l) :
    splitOnCharL sep l = [l] := by
  induction l with
  | nil => simp [splitOnCharL]
  | cons c cs ih =>
    have hc : ¬ c = sep := fun hh => h (by simp [hh])
    rw [splitOnCharL_cons_ne sep c cs hc,
      ih (fun hm => h (by simp [hm]))]
    simp [consHead]

theorem splitOnCharL_sep_cons (sep : Char) (l rest : List Char) (h : sep ∉ l) :
    splitOnCharL sep (l ++ sep :: rest) = l :: splitOnCharL sep rest := by
  have h1 : splitOnCharL sep (l ++ [sep]) = [l, []] := by
    rw [splitOnCharL_append sep l [sep], splitOnCharL_of_not_mem sep l h]
    simp [splitOnCharL, segsButLast, segsLast, consHead]
  have h2 : l ++ sep :: rest = (l ++ [sep]) ++ rest := by simp
  rw [h2, splitOnCharL_append sep (l ++ [sep]) rest, h1]
  simp only [segsButLast, segsLast]
  rw [consHead_nil_of_ne_nil _ (splitOnCharL_ne_nil sep rest)]
  rfl

theorem joinSepL_cons_of_ne_nil (sep : Char) (x : List Char)
    (xs : List (List Char)) (h : xs ≠ []) :
    joinSepL sep (x :: xs) = x ++ sep :: joinSepL sep xs := by
  cases xs with
  | nil => exact absurd rfl h
  | cons y ys => rfl

theorem splitOnCharL_joinSepL (sep : Char) (ls : List (List Char))
    (hne : ls ≠ []) (h : ∀ l ∈ ls, sep ∉ l) :
    splitOnCharL sep (joinSepL sep ls) = ls := by
  induction ls with
  | nil => exact absurd rfl hne
  | cons x xs ih =>
    cases xs with
    | nil =>
      simp only [joinSepL]
      exact splitOnCharL_of_not_mem sep x (h x (by simp))
    | cons y ys =>
      rw [joinSepL_cons_of_ne_nil sep x (y :: ys) (by simp),
        splitOnCharL_sep_cons sep x _ (h x (by simp)),
        ih (by simp) (fun l hl => h l (by simp [hl]))]

/- ### UTF-8 (model of the WHATWG TextDecoder used by parseJSON)

The source constructs new TextDecoder with label utf-8 and calls
decoder.decode(chunk) WITHOUT the stream option, so every chunk is
decoded independently and an incomplete multi-byte sequence at a chunk
edge yields U+FFFD replacement characters. -/

/-- The U+FFFD replacement character. -/
def repl : Char := '�'

/-- WHATWG UTF-8 decode with replacement of invalid sequences, applied
to a whole byte sequence (one TextDecoder.decode call without the
stream flag). -/
def utf8Decode : List Nat → List Char
  | [] => []
  | b :: bs =>
    if b < 0x80 then Char.ofNat b :: utf8Decode bs
    else if 0xC2 ≤ b ∧ b ≤ 0xDF then
      match bs with
      | [] => [repl]
      | b1 :: bs1 =>
        if 0x80 ≤ b1 ∧ b1 ≤ 0xBF then
          Char.ofNat ((b - 0xC0) * 64 + (b1 - 0x80)) :: utf8Decode bs1
        else repl :: utf8Decode (b1 :: bs1)
    else if 0xE0 ≤ b ∧ b ≤ 0xEF then
      match bs with
      | [] => [repl]
      | b1 :: bs1 =>
        if (if b = 0xE0 then 0xA0 else 0x80) ≤ b1 ∧
            b1 ≤ (if b = 0xED then 0x9F else 0xBF) then
          match bs1 with
          | [] => [repl]
          | b2 :: bs2 =>
            if 0x80 ≤ b2 ∧ b2 ≤ 0xBF then
              Char.ofNat ((b - 0xE0) * 4096 + (b1 - 0x80) * 64 + (b2 - 0x80)) ::
                utf8Decode bs2
            else repl :: utf8Decode (b2 :: bs2)
        else repl :: utf8Decode (b1 :: bs1)
    else if 0xF0 ≤ b ∧ b ≤ 0xF4 then
      match bs with
      | [] => [repl]
      | b1 :: bs1 =>
        if (if b = 0xF0 then 0x90 else 0x80) ≤ b1 ∧
            b1 ≤ (if b = 0xF4 then 0x8F else 0xBF) then
          match bs1 with
          | [] => [repl]
          | b2 :: bs2 =>
            if 0x80 ≤ b2 ∧ b2 ≤ 0xBF then
              match bs2 with
              | [] => [repl]
              | b3 :: bs3 =>
                if 0x80 ≤ b3 ∧ b3 ≤ 0xBF then
                  Char.ofNat ((b - 0xF0) * 262144 + (b1 - 0x80) * 4096 +
                      (b2 - 0x80) * 64 + (b3 - 0x80)) :: utf8Decode bs3
                else repl :: utf8Decode (b3 :: bs3)
            else repl :: utf8Decode (b2 :: bs2)
        else repl :: utf8Decode (b1 :: bs1)
    else repl :: utf8Decode bs

/-- UTF-8 encoding of one Unicode scalar value. -/
def utf8EncodeChar (c : Char) : List Nat :=
  let n := c.toNat
  if n < 0x80 then [n]
  else if n < 0x800 then [0xC0 + n / 64, 0x80 + n % 64]
  else if n < 0x10000 then
    [0xE0 + n / 4096, 0x80 + n / 64 % 64, 0x80 + n % 64]
  else
    [0xF0 + n / 262144, 0x80 + n / 4096 % 64, 0x80 + n / 64 % 64, 0x80 + n % 64]

/-- UTF-8 encoding of a character sequence. -/
def utf8Encode (cs : List Char) : List Nat := catLists (cs.map utf8EncodeChar)

theorem utf8Decode_encodeChar (c : Char) (rest : List Nat) :
    utf8Decode (utf8EncodeChar c ++ rest) = c :: utf8Decode rest := by
  have hv : c.toNat < 0xD800 ∨ (0xE000 ≤ c.toNat ∧ c.toNat < 0x110000) := c.valid
  have hofn : Char.ofNat c.toNat = c := Char.ofNat_toNat c
  have e1 : 64 * (c.toNat / 64) + c.toNat % 64 = c.toNat := Nat.div_add_mod _ 64
  have m1 : c.toNat % 64 < 64 := Nat.mod_lt _ (by omega)
  have e2 : 64 * (c.toNat / 64 / 64) + c.toNat / 64 % 64 = c.toNat / 64 :=
    Nat.div_add_mod _ 64
  have m2 : c.toNat / 64 % 64 < 64 := Nat.mod_lt _ (by omega)
  have d2 : c.toNat / 64 / 64 = c.toNat / 4096 := by
    rw [Nat.div_div_eq_div_mul]
  have e3 : 64 * (c.toNat / 4096 / 64) + c.toNat / 4096 % 64 = c.toNat / 4096 :=
    Nat.div_add_mod _ 64
  have m3 : c.toNat / 4096 % 64 < 64 := Nat.mod_lt _ (by omega)
  have d3 : c.toNat / 4096 / 64 = c.toNat / 262144 := by
    rw [Nat.div_div_eq_div_mul]
  rw [d2] at e2
  rw [d3] at e3
  by_cases h1 : c.toNat < 0x80
  · have he : utf8EncodeChar c = [c.toNat] := by
      simp only [utf8EncodeChar, if_pos h1]
    rw [he, List.singleton_append, utf8Decode.eq_def]
    simp only []
    rw [if_pos h1, hofn]
  · by_cases h2 : c.toNat < 0x800
    · have he : utf8EncodeChar c = [0xC0 + c.toNat / 64, 0x80 + c.toNat % 64] := by
        simp only [utf8EncodeChar, if_neg h1, if_pos h2]
      rw [he]
      show utf8Decode ((0xC0 + c.toNat / 64) :: (0x80 + c.toNat % 64) :: rest) =
        c :: utf8Decode rest
      rw [utf8Decode.eq_def]
      simp only []
      rw [if_neg (by omega), if_pos (by omega)]
      rw [if_pos (by omega)]
      have hval : (0xC0 + c.toNat / 64 - 0xC0) * 64 + (0x80 + c.toNat % 64 - 0x80) =
          c.toNat := by omega
      rw [hval, hofn]
    · by_cases h3 : c.toNat < 0x10000
      · have he : utf8EncodeChar c =
            [0xE0 + c.toNat / 4096, 0x80 + c.toNat / 64 % 64, 0x80 + c.toNat % 64] := by
          simp only [utf8EncodeChar, if_neg h1, if_neg h2, if_pos h3]
        rw [he]
        show utf8Decode ((0xE0 + c.toNat / 4096) :: (0x80 + c.toNat / 64 % 64) ::
            (0x80 + c.toNat % 64) :: rest) = c :: utf8Decode rest
        rw [utf8Decode.eq_def]
        simp only []
        rw [if_neg (by omega), if_neg (by omega), if_pos (by omega)]
        rw [if_pos (by split_ifs with he1 he2 <;> omega)]
        rw [if_pos (by omega)]
        have hval : (0xE0 + c.toNat / 4096 - 0xE0) * 4096 +
            (0x80 + c.toNat / 64 % 64 - 0x80) * 64 +
            (0x80 + c.toNat % 64 - 0x80) = c.toNat := by omega
        rw [hval, hofn]
      · have h4 : c.toNat < 0x110000 := by omega
        have he : utf8EncodeChar c =
            [0xF0 + c.toNat / 262144, 0x80 + c.toNat / 4096 % 64,
              0x80 + c.toNat / 64 % 64, 0x80 + c.toNat % 64] := by
          simp only [utf8EncodeChar, if_neg h1, if_neg h2, if_neg h3]
        rw [he]
        show utf8Decode ((0xF0 + c.toNat / 262144) :: (0x80 + c.toNat / 4096 % 64) ::
            (0x80 + c.toNat / 64 % 64) :: (0x80 + c.toNat % 64) :: rest) =
          c :: utf8Decode rest
        rw [utf8Decode.eq_def]
        simp only []
        rw [if_neg (by omega), if_neg (by omega), if_neg (by omega),
          if_pos (by omega)]
        rw [if_pos (by split_ifs with hf1 hf2 <;> omega)]
        rw [if_pos (by omega)]
        rw [if_pos (by omega)]
        have hval : (0xF0 + c.toNat / 262144 - 0xF0) * 262144 +
            (0x80 + c.toNat / 4096 % 64 - 0x80) * 4096 +
            (0x80 + c.toNat / 64 % 64 - 0x80) * 64 +
            (0x80 + c.toNat % 64 - 0x80) = c.toNat := by omega
        rw [hval, hofn]

theorem utf8Decode_encode (cs : List Char) :
    utf8Decode (utf8Encode cs) = cs := by
  induction cs with
  | nil => rfl
  | cons c cs ih =>
    have h : utf8Encode (c :: cs) = utf8EncodeChar c ++ utf8Encode cs := rfl
    rw [h]
    have h2 : utf8Decode (utf8EncodeChar c ++ utf8Encode cs) =
        c :: utf8Decode (utf8Encode cs) := utf8Decode_encodeChar c (utf8Encode cs)
    rw [h2, ih]

theorem utf8Decode_encode_append (cs : List Char) (rest : List Nat) :
    utf8Decode (utf8Encode cs ++ rest) = cs ++ utf8Decode rest := by
  induction cs with
  | nil => rfl
  | cons c cs ih =>
    have h : utf8Encode (c :: cs) ++ rest =
        utf8EncodeChar c ++ (utf8Encode cs ++ rest) := by
      simp [utf8Encode, catLists, List.append_assoc]
    rw [h, utf8Decode_encodeChar, ih]
    rfl

/- ### parseJSON (src/utils.ts lines 333-370)

The decoder reads byte chunks, decodes each chunk with a fresh
TextDecoder.decode call, accumulates text in a buffer, splits on the
newline character, pops the trailing segment back into the buffer, and
JSON-parses every completed segment, yielding parsed values and
warning (console.warn) on parse failure.  On stream end the residual
buffer is split again and each non-empty segment is parsed.

JSON.parse is external to the repository, so the decoder is modelled
generically over a parse function; an event is either a yielded value
(Sum.inl) or a logged warning carrying the offending line (Sum.inr). -/

/-- One iteration of the source's try-yield-catch-warn body. -/
def procPart {J : Type} (parse : List Char → Option J) (part : List Char) :
    J ⊕ List Char :=
  match parse part with
  | some v => Sum.inl v
  | none => Sum.inr part

/-- The loop of parseJSON: buffer is the retained trailing segment,
the remaining chunk list is the unread part of the byte stream. -/
def parseJSONGo {J : Type} (parse : List Char → Option J) :
    List Char → List (List Nat) → List (J ⊕ List Char)
  | buffer, [] =>
    ((splitOnCharL '\n' buffer).filter (fun p => !p.isEmpty)).map (procPart parse)
  | buffer, chunk :: rest =>
    let parts := splitOnCharL '\n' (buffer ++ utf8Decode chunk)
    (segsButLast parts).map (procPart parse) ++
      parseJSONGo parse (segsLast parts) rest

/-- parseJSON applied to a full sequence of byte chunks: the ordered
list of yield and warning events. -/
def parseJSONEvents {J : Type} (parse : List Char → Option J)
    (chunks : List (List Nat)) : List (J ⊕ List Char) :=
  parseJSONGo parse [] chunks

/-- The values yielded by the decoder, in order. -/
def jsonYields {J : Type} (parse : List Char → Option J)
    (chunks : List (List Nat)) : List J :=
  (parseJSONEvents parse chunks).filterMap
    (fun e => match e with | Sum.inl v => some v | Sum.inr _ => none)

/-- The malformed lines warned about by the decoder, in order. -/
def jsonWarns {J : Type} (parse : List Char → Option J)
    (chunks : List (List Nat)) : List (List Char) :=
  (parseJSONEvents parse chunks).filterMap
    (fun e => match e with | Sum.inl _ => none | Sum.inr p => some p)

/-- Reference (spec-side) line-by-line behavior on the concatenated
decoded text: every complete line is processed in order, and the
trailing segment after the last newline is processed iff non-empty. -/
def specLineEvents {J : Type} (parse : List Char → Option J)
    (text : List Char) : List (J ⊕ List Char) :=
  (segsButLast (splitOnCharL '\n' text)).map (procPart parse) ++
    (if segsLast (splitOnCharL '\n' text) = [] then []
     else [procPart parse (segsLast (splitOnCharL '\n' text))])

theorem segsLast_mem (l : List (List Char)) (h : l ≠ []) : segsLast l ∈ l := by
  induction l with
  | nil => exact absurd rfl h
  | cons x xs ih =>
    cases xs with
    | nil => simp [segsLast]
    | cons y ys =>
      rw [segsLast_cons_of_ne_nil x (y :: ys) (by simp)]
      exact List.mem_cons_of_mem x (ih (by simp))

theorem segsButLast_append (A C : List (List Char)) (h : C ≠ []) :
    segsButLast (A ++ C) = A ++ segsButLast C := by
  induction A with
  | nil => rfl
  | cons a A ih =>
    rw [List.cons_append,
      segsButLast_cons_of_ne_nil a (A ++ C) (by simp [h]), ih]
    rfl

theorem segsLast_append (A C : List (List Char)) (h : C ≠ []) :
    segsLast (A ++ C) = segsLast C := by
  induction A with
  | nil => rfl
  | cons a A ih =>
    rw [List.cons_append, segsLast_cons_of_ne_nil a (A ++ C) (by simp [h]), ih]

theorem specLineEvents_step {J : Type} (parse : List Char → Option J)
    (X rest : List Char) :
    specLineEvents parse (X ++ rest) =
      (segsButLast (splitOnCharL '\n' X)).map (procPart parse) ++
        specLineEvents parse (segsLast (splitOnCharL '\n' X) ++ rest) := by
  have hLmem : segsLast (splitOnCharL '\n' X) ∈ splitOnCharL '\n' X :=
    segsLast_mem _ (splitOnCharL_ne_nil '\n' X)
  have hL : '\n' ∉ segsLast (splitOnCharL '\n' X) :=
    mem_splitOnCharL_not_mem '\n' X _ hLmem
  have hsplitL : splitOnCharL '\n' (segsLast (splitOnCharL '\n' X)) =
      [segsLast (splitOnCharL '\n' X)] := splitOnCharL_of_not_mem _ _ hL
  have hC : splitOnCharL '\n' (segsLast (splitOnCharL '\n' X) ++ rest) =
      consHead (segsLast (splitOnCharL '\n' X)) (splitOnCharL '\n' rest) := by
    rw [splitOnCharL_append, hsplitL]
    rfl
  have hX : splitOnCharL '\n' (X ++ rest) =
      segsButLast (splitOnCharL '\n' X) ++
        consHead (segsLast (splitOnCharL '\n' X)) (splitOnCharL '\n' rest) :=
    splitOnCharL_append '\n' X rest
  have hCne : consHead (segsLast (splitOnCharL '\n' X)) (splitOnCharL '\n' rest) ≠ [] :=
    consHead_ne_nil _ _
  simp only [specLineEvents, hX, hC,
    segsButLast_append _ _ hCne, segsLast_append _ _ hCne, List.map_append,
    List.append_assoc]

theorem parseJSONGo_spec {J : Type} (parse : List Char → Option J)
    (ccs : List (List Char)) :
    ∀ buffer : List Char, '\n' ∉ buffer →
      parseJSONGo parse buffer (List.map utf8Encode ccs) =
        specLineEvents parse (buffer ++ catLists ccs) := by
  induction ccs with
  | nil =>
    intro buffer hb
    have hsplit : splitOnCharL '\n' buffer = [buffer] :=
      splitOnCharL_of_not_mem '\n' buffer hb
    simp only [List.map_nil, parseJSONGo, catLists, List.append_nil,
      specLineEvents, hsplit, segsButLast, segsLast, List.map_nil,
      List.nil_append]
    cases buffer with
    | nil => simp
    | cons c cs => simp [List.isEmpty]
  | cons cc ccs ih =>
    intro buffer hb
    have hdec : buffer ++ utf8Decode (utf8Encode cc) = buffer ++ cc := by
      rw [utf8Decode_encode]
    have hlast : '\n' ∉ segsLast (splitOnCharL '\n' (buffer ++ cc)) :=
      mem_splitOnCharL_not_mem '\n' (buffer ++ cc) _
        (segsLast_mem _ (splitOnCharL_ne_nil '\n' (buffer ++ cc)))
    calc parseJSONGo parse buffer (List.map utf8Encode (cc :: ccs))
        = (segsButLast (splitOnCharL '\n' (buffer ++ cc))).map (procPart parse) ++
            parseJSONGo parse (segsLast (splitOnCharL '\n' (buffer ++ cc)))
              (List.map utf8Encode ccs) := by
          simp only [List.map_cons, parseJSONGo, hdec]
      _ = (segsButLast (splitOnCharL '\n' (buffer ++ cc))).map (procPart parse) ++
            specLineEvents parse
              (segsLast (splitOnCharL '\n' (buffer ++ cc)) ++ catLists ccs) := by
          rw [ih _ hlast]
      _ = specLineEvents parse ((buffer ++ cc) ++ catLists ccs) :=
          (specLineEvents_step parse (buffer ++ cc) (catLists ccs)).symm
      _ = specLineEvents parse (buffer ++ catLists (cc :: ccs)) := by
          simp [catLists, List.append_assoc]

theorem splitOnCharL_terminated (ls : List (List Char))
    (h : ∀ l ∈ ls, '\n' ∉ l) :
    splitOnCharL '\n' (catLists (ls.map (fun l => l ++ ['\n']))) = ls ++ [[]] := by
  induction ls with
  | nil => rfl
  | cons l ls ih =>
    have hstep : catLists (List.map (fun l => l ++ ['\n']) (l :: ls)) =
        l ++ '\n' :: catLists (List.map (fun l => l ++ ['\n']) ls) := by
      simp [catLists, List.append_assoc]
    rw [hstep, splitOnCharL_sep_cons '\n' l _ (h l (by simp)),
      ih (fun x hx => h x (by simp [hx]))]
    rfl

theorem filterMap_procPart_left {J : Type} (parse : List Char → Option J)
    (ls : List (List Char)) :
    (ls.map (procPart parse)).filterMap
        (fun e => match e with | Sum.inl v => some v | Sum.inr _ => none) =
      ls.filterMap parse := by
  induction ls with
  | nil => rfl
  | cons l ls ih =>
    simp only [List.map_cons, List.filterMap_cons, procPart]
    cases hp : parse l <;> simp [hp, ih]

theorem filterMap_procPart_right {J : Type} (parse : List Char → Option J)
    (ls : List (List Char)) :
    (ls.map (procPart parse)).filterMap
        (fun e => match e with | Sum.inl _ => none | Sum.inr p => some p) =
      ls.filter (fun l => (parse l).isNone) := by
  induction ls with
  | nil => rfl
  | cons l ls ih =>
    simp only [List.map_cons, List.filterMap_cons, List.filter_cons, procPart]
    cases hp : parse l <;> simp [hp, ih]

/-- C1 (amended): chunk boundaries that respect UTF-8 character
boundaries never affect the decoded events: the decoder behaves as the
line-by-line reference on the concatenated text.  In particular, when
the concatenation is a sequence of newline-terminated lines, the
decoder yields exactly the parsed values of the valid lines in line
order, and each malformed line is skipped with a logged warning
without terminating the sequence. -/
theorem parseJSON_lines_amended {J : Type} (parse : List Char → Option J)
    (ccs : List (List Char)) :
    parseJSONEvents parse (List.map utf8Encode ccs) =
        specLineEvents parse (catLists ccs) ∧
      (∀ ls : List (List Char), (∀ l ∈ ls, '\n' ∉ l) →
        catLists ccs = catLists (ls.map (fun l => l ++ ['\n'])) →
        jsonYields parse (List.map utf8Encode ccs) = ls.filterMap parse ∧
          jsonWarns parse (List.map utf8Encode ccs) =
            ls.filter (fun l => (parse l).isNone)) := by
  have hmain : parseJSONEvents parse (List.map utf8Encode ccs) =
      specLineEvents parse (catLists ccs) := by
    have h := parseJSONGo_spec parse ccs [] (by simp)
    simpa [parseJSONEvents] using h
  refine ⟨hmain, ?_⟩
  intro ls hls hcat
  have hsplit : splitOnCharL '\n' (catLists ccs) = ls ++ [[]] := by
    rw [hcat]
    exact splitOnCharL_terminated ls hls
  have hspec : specLineEvents parse (catLists ccs) = ls.map (procPart parse) := by
    simp only [specLineEvents, hsplit,
      segsButLast_append ls [[]] (by simp), segsLast_append ls [[]] (by simp)]
    simp [segsButLast, segsLast]
  constructor
  · rw [jsonYields, hmain, hspec, filterMap_procPart_left]
  · rw [jsonWarns, hmain, hspec, filterMap_procPart_right]

/-- Concrete stand-in for the platform JSON.parse, used only to
instantiate examples: a double-quoted string literal with no escapes
and no inner quote parses to its contents; everything else fails. -/
def jsonStrParse (l : List Char) : Option (List Char) :=
  if 2 ≤ l.length ∧ l.headD ' ' = '"' ∧ l.getLastD ' ' = '"' ∧
      (l.drop 1).dropLast.all (fun c => decide (c ≠ '"' ∧ c ≠ '\\')) = true
  then some ((l.drop 1).dropLast) else none

/-- C1 (counterexample): the concatenated bytes are the single
complete newline-terminated valid JSON line for the string containing
the letter e-acute, but because the source decodes every chunk with a
fresh TextDecoder.decode call (no stream option), a chunk boundary
inside the two-byte UTF-8 character makes the decoder yield the
corrupted string of two replacement characters instead of the line's
parsed value; the same bytes in a single chunk yield the correct
value. -/
theorem parseJSON_multibyte_boundary_cex :
    catLists [[0x22, 0xC3], [0xA9, 0x22, 0x0A]] =
        utf8Encode ['"', 'é', '"', '\n'] ∧
      jsonStrParse ['"', 'é', '"'] = some ['é'] ∧
      jsonYields jsonStrParse [[0x22, 0xC3, 0xA9, 0x22, 0x0A]] = [['é']] ∧
      jsonYields jsonStrParse [[0x22, 0xC3], [0xA9, 0x22, 0x0A]] = [[repl, repl]] ∧
      [[repl, repl]] ≠ [['é']] := by
  refine ⟨by decide, by decide, by decide, by decide, by decide⟩

/-- Chunk sequence used to instantiate the amended C1 theorem: the
boundary splits the malformed middle line. -/
def c1Chunks : List (List Char) :=
  [('\x22' :: 'a' :: '\x22' :: '\n' :: 'n' :: 'o' :: []),
    ('p' :: 'e' :: '\n' :: '\x22' :: 'b' :: '\x22' :: '\n' :: [])]

/-- The three newline-terminated lines of c1Chunks: two valid string
literals around one malformed line. -/
def c1Lines : List (List Char) :=
  [('\x22' :: 'a' :: '\x22' :: []), ('n' :: 'o' :: 'p' :: 'e' :: []),
    ('\x22' :: 'b' :: '\x22' :: [])]

theorem parseJSON_lines_amended_wit :
    jsonYields jsonStrParse (List.map utf8Encode c1Chunks) = [['a'], ['b']] ∧
      jsonWarns jsonStrParse (List.map utf8Encode c1Chunks) =
        [('n' :: 'o' :: 'p' :: 'e' :: [])] := by
  have h := (parseJSON_lines_amended jsonStrParse c1Chunks).2 c1Lines
    (by decide) (by decide)
  exact ⟨h.1.trans (by decide), h.2.trans (by decide)⟩

/- ### AbortableAsyncIterator (src/utils.ts lines 173-201)

A decoded item is modelled by its three observable fields: the
presence of an error key (the JS test uses the in operator, so an
empty string still counts as present), the done flag and the status
field.  Iteration over a list of decoded items reproduces the
asyncIterator body: an error item raises with the server message, a
yielded item whose done flag is set or whose status equals success
invokes the registry-removal callback and returns, and exhaustion of
the underlying stream without a completion item raises. -/

structure Msg where
  error : Option String
  done : Bool
  status : Option String
deriving DecidableEq, Repr

/-- The completion test of the iterator body. -/
def completes (m : Msg) : Bool :=
  m.done || m.status = some ("success")

/-- Error message thrown when the stream ends without completion. -/
def noCompletionMsg : String :=
  "Did not receive done or success response in stream."

inductive IterOutcome where
  | completed
  | failed (msg : String)
deriving DecidableEq, Repr

structure RunOut where
  yielded : List Msg
  doneCalls : Nat
  outcome : IterOutcome
deriving DecidableEq, Repr

/-- Iteration of the AbortableAsyncIterator over the decoded items of
the underlying stream: yielded items, number of doneCallback
invocations, and how the iteration ended. -/
def runIter : List Msg → RunOut
  | [] => { yielded := [], doneCalls := 0, outcome := .failed noCompletionMsg }
  | m :: rest =>
    match m.error with
    | some e => { yielded := [], doneCalls := 0, outcome := .failed e }
    | none =>
      if completes m then
        { yielded := [m], doneCalls := 1, outcome := .completed }
      else
        let r := runIter rest
        { yielded := m :: r.yielded, doneCalls := r.doneCalls,
          outcome := r.outcome }

theorem runIter_skips (pre : List Msg) (rest : List Msg)
    (hpre : ∀ x ∈ pre, x.error = none ∧ completes x = false) :
    runIter (pre ++ rest) =
      { yielded := pre ++ (runIter rest).yielded,
        doneCalls := (runIter rest).doneCalls,
        outcome := (runIter rest).outcome } := by
  induction pre with
  | nil => rfl
  | cons m pre ih =>
    have hm := hpre m (by simp)
    have ih2 := ih (fun x hx => hpre x (by simp [hx]))
    simp only [List.cons_append, runIter, hm.1, hm.2, Bool.false_eq_true,
      if_false, List.append_eq, ih2]

/-- C4 (confirmed): once the iterator reaches an item carrying an
error field, iteration raises an error carrying that server-supplied
message, the registry-removal callback is not invoked, and no further
items are yielded regardless of what follows in the stream. -/
theorem runIter_error_raises (pre : List Msg) (m : Msg) (post : List Msg)
    (e : String) (hpre : ∀ x ∈ pre, x.error = none ∧ completes x = false)
    (he : m.error = some e) :
    runIter (pre ++ m :: post) =
      { yielded := pre, doneCalls := 0, outcome := .failed e } := by
  rw [runIter_skips pre (m :: post) hpre]
  simp [runIter, he]

theorem runIter_error_raises_wit :
    runIter [⟨none, false, none⟩, ⟨some ("boom"), false, none⟩,
        ⟨none, true, none⟩] =
      { yielded := [⟨none, false, none⟩], doneCalls := 0,
        outcome := .failed ("boom") } := by
  have h := runIter_error_raises [⟨none, false, none⟩] ⟨some ("boom"), false, none⟩
    [⟨none, true, none⟩] ("boom") (by decide) rfl
  exact h

/-- C3 (counterexample): a stream consisting of a single error item
ends without any item whose done flag is set or whose status is
success, yet iteration raises the server-supplied error, not the
stream-ended-without-completion error the claim requires. -/
theorem runIter_error_item_cex :
    (∀ m ∈ [Msg.mk (some ("boom")) false none], completes m = false) ∧
      runIter [Msg.mk (some ("boom")) false none] =
        { yielded := [], doneCalls := 0, outcome := .failed ("boom") } ∧
      ("boom" : String) ≠ noCompletionMsg := by
  refine ⟨by decide, rfl, by decide⟩

/-- C3 (amended): over streams of error-free items, (a) if no item
carries a completion signal, iteration yields all items and then
raises the no-completion error with the callback never invoked; (b) if
the last item is the first item carrying a completion signal,
iteration yields every item in order, ends normally, and invokes the
registry-removal callback exactly once. -/
theorem runIter_completion_amended (msgs : List Msg) :
    ((∀ x ∈ msgs, x.error = none ∧ completes x = false) →
      runIter msgs =
        { yielded := msgs, doneCalls := 0, outcome := .failed noCompletionMsg }) ∧
    (∀ pre last, msgs = pre ++ [last] →
      (∀ x ∈ pre, x.error = none ∧ completes x = false) →
      last.error = none → completes last = true →
      runIter msgs =
        { yielded := msgs, doneCalls := 1, outcome := .completed }) := by
  constructor
  · intro h
    have := runIter_skips msgs [] h
    simpa [runIter] using this
  · intro pre last hmsgs hpre hel hcl
    subst hmsgs
    rw [runIter_skips pre [last] hpre]
    simp [runIter, hel, hcl]

theorem runIter_completion_amended_wit :
    runIter [⟨none, false, none⟩, ⟨none, false, some ("success")⟩] =
      { yielded := [⟨none, false, none⟩, ⟨none, false, some ("success")⟩],
        doneCalls := 1, outcome := .completed } := by
  exact (runIter_completion_amended
      [⟨none, false, none⟩, ⟨none, false, some ("success")⟩]).2
    [⟨none, false, none⟩] ⟨none, false, some ("success")⟩ rfl (by decide)
    rfl (by decide)

/- ### Global abort and the ongoing request registry
(src/browser.ts lines 62-67, src/utils.ts lines 184-186)

Each streamed request owns an AbortController; the client keeps the
registered iterators in ongoingStreamedRequests.  A stream is
modelled by whether it is currently registered and whether its
controller has been aborted.  The global abort() calls abort() on
every registered stream and then clears the registry. -/

structure StreamRec where
  registered : Bool
  aborted : Bool
deriving DecidableEq, Repr

/-- Effect of the client's global abort(): every registered stream's
controller fires and the registry is emptied; unregistered streams are
untouched. -/
def abortClient (streams : List StreamRec) : List StreamRec :=
  streams.map (fun s =>
    if s.registered then { registered := false, aborted := true } else s)

/-- The ongoing request registry: the registered streams. -/
def registryOf (streams : List StreamRec) : List StreamRec :=
  streams.filter (fun s => s.registered)

/-- Message of the DOMException produced when a fetch is aborted. -/
def abortErrMsg : String := "The operation was aborted."

/-- Iterating a stream after its controller fired: the platform fetch
rejects the pending body read once its AbortSignal fires (modelled
behavior of the external fetch), so iteration raises instead of ending
as an empty stream; an un-aborted stream iterates normally. -/
def runIterAborted (s : StreamRec) (msgs : List Msg) : RunOut :=
  if s.aborted then
    { yielded := [], doneCalls := 0, outcome := .failed abortErrMsg }
  else runIter msgs

/-- C7 (confirmed): after the global abort, the registry is empty,
every previously registered stream's cancellation token has fired, its
further iteration observes a failure (never a silent completed close),
and streams that were not registered are untouched. -/
theorem abort_cancels_all (streams : List StreamRec) (msgs : List Msg) :
    registryOf (abortClient streams) = [] ∧
      (abortClient streams).length = streams.length ∧
      (∀ i (h : i < streams.length), (streams.get ⟨i, h⟩).registered = true →
        ∀ h2 : i < (abortClient streams).length,
          ((abortClient streams).get ⟨i, h2⟩).aborted = true ∧
            ((abortClient streams).get ⟨i, h2⟩).registered = false ∧
            runIterAborted ((abortClient streams).get ⟨i, h2⟩) msgs =
              { yielded := [], doneCalls := 0, outcome := .failed abortErrMsg } ∧
            (runIterAborted ((abortClient streams).get ⟨i, h2⟩) msgs).outcome ≠
              .completed) ∧
      (∀ i (h : i < streams.length), (streams.get ⟨i, h⟩).registered = false →
        ∀ h2 : i < (abortClient streams).length,
          (abortClient streams).get ⟨i, h2⟩ = streams.get ⟨i, h⟩) := by
  refine ⟨?_, by simp [abortClient], ?_, ?_⟩
  · unfold registryOf abortClient
    induction streams with
    | nil => rfl
    | cons s ss ih =>
      by_cases hs : s.registered
      · simp [hs, ih]
      · simp [hs, ih]
  · intro i h hreg h2
    have hget : (abortClient streams).get ⟨i, h2⟩ =
        (if (streams.get ⟨i, h⟩).registered then
          { registered := false, aborted := true } else streams.get ⟨i, h⟩) := by
      simp [abortClient]
    rw [hget, if_pos hreg]
    refine ⟨rfl, rfl, rfl, by simp [runIterAborted, abortErrMsg]⟩
  · intro i h hreg h2
    have hreg2 : ¬ (streams.get ⟨i, h⟩).registered = true := by
      rw [hreg]
      simp
    have hget : (abortClient streams).get ⟨i, h2⟩ =
        (if (streams.get ⟨i, h⟩).registered then
          { registered := false, aborted := true } else streams.get ⟨i, h⟩) := by
      simp [abortClient]
    rw [hget, if_neg hreg2]

/-- Concrete client state for the C7 witness: two registered streams
and one unregistered one. -/
def c7Streams : List StreamRec :=
  [⟨true, false⟩, ⟨true, false⟩, ⟨false, false⟩]

theorem abort_cancels_all_wit :
    registryOf (abortClient c7Streams) = [] ∧
      runIterAborted ((abortClient c7Streams).get ⟨0, by decide⟩) [] =
        { yielded := [], doneCalls := 0, outcome := .failed abortErrMsg } := by
  have h := abort_cancels_all c7Streams []
  refine ⟨h.1, ?_⟩
  have h3 := h.2.2.1 0 (by decide) (by decide) (by decide)
  exact h3.2.2.1

/- ### checkOk and the typed ResponseError (src/utils.ts lines 203-228)

A response is modelled by its observable fields: ok flag (2xx), status
code, status text, whether the content-type header includes
application/json, the error field of the parsed JSON body (outer none:
body is not parseable JSON; inner none: no error field) and the text
body (none: reading text throws). -/

structure RespErr where
  error : String
  status_code : Nat
deriving DecidableEq, Repr

structure Resp where
  ok : Bool
  status : Nat
  statusText : String
  ctJson : Bool
  jsonBody : Option (Option String)
  textBody : Option String
deriving DecidableEq, Repr

/-- JS truthiness fallback x or-else d for an optional string. -/
def jsOr (v : Option String) (d : String) : String :=
  match v with
  | some s => if s = "" then d else s
  | none => d

/-- checkOk: nothing on a successful response, otherwise the
ResponseError with a best-effort message (JSON error field, else text
body, else the default status line) and the status code. -/
def checkOk (r : Resp) : Option RespErr :=
  if r.ok then none
  else
    let dflt := "Error " ++ toString r.status ++ ": " ++ r.statusText
    let msg :=
      if r.ctJson then
        match r.jsonBody with
        | some e => jsOr e dflt
        | none => dflt
      else jsOr r.textBody dflt
    some { error := msg, status_code := r.status }

/-- Model of JS String.prototype.includes on char lists. -/
def listIncludes (needle hay : List Char) : Bool :=
  (List.range (hay.length + 1)).any
    (fun i => decide ((hay.drop i).take needle.length = needle))

/-- Model of JS String.prototype.includes. -/
def strIncludes (needle hay : String) : Bool :=
  listIncludes needle.data hay.data

/- ### Request headers (src/utils.ts lines 239-261, 277-290; createBlob
call site src/index.ts lines 82-85)

A JS header object maps names to either strings or (erroneously)
nested objects.  fetchWithHeaders spread-merges the fixed default
headers with options.headers, the per-call entries winning. -/

inductive HVal where
  | str : String → HVal
  | obj : List (String × HVal) → HVal

def lookupH : List (String × HVal) → String → Option HVal
  | [], _ => none
  | (k, v) :: rest, key => if k = key then some v else lookupH rest key

/-- JS object spread of b over a: keys of a in order (with the value
from b when b also has the key), then the keys only b has. -/
def spreadMerge (a b : List (String × HVal)) : List (String × HVal) :=
  (a.map (fun kv =>
    match lookupH b kv.1 with
    | some v => (kv.1, v)
    | none => kv)) ++ b.filter (fun kv => (lookupH a kv.1).isNone)

/-- The fixed default header set of fetchWithHeaders (ua abstracts the
computed User-Agent string). -/
def defaultHeaders (ua : String) : List (String × HVal) :=
  [("Content-Type", HVal.str ("application/json")),
   ("Accept", HVal.str ("application/json")),
   ("User-Agent", HVal.str ua)]

/-- The header object fetchWithHeaders sends: defaults spread-merged
with (and overridden by) options.headers. -/
def fetchWithHeadersHeaders (ua : String)
    (optHeaders : Option (List (String × HVal))) : List (String × HVal) :=
  spreadMerge (defaultHeaders ua) (optHeaders.getD [])

/-- The third argument createBlob passes to utils.head: an object
whose single key is headers, wrapping the Authorization record. -/
def createBlobHeadParam (apiKey : String) : List (String × HVal) :=
  [("headers", HVal.obj [("Authorization", HVal.str ("Bearer " ++ apiKey))])]

/-- utils.head forwards its entire third argument as options.headers,
so the probe request's headers are the defaults merged with the
wrapped object. -/
def headRequestHeaders (ua apiKey : String) : List (String × HVal) :=
  fetchWithHeadersHeaders ua (some (createBlobHeadParam apiKey))

/-- utils.post (processStreamableRequest, copy, show, embed) receives
the Authorization record itself as options.headers. -/
def postAuthRequestHeaders (ua apiKey : String) : List (String × HVal) :=
  fetchWithHeadersHeaders ua
    (some [("Authorization", HVal.str ("Bearer " ++ apiKey))])

/-- C9 (code bug): the HEAD blob-existence probe issued by createBlob
carries no top-level Authorization header: the bearer token ends up
nested under a bogus headers key, while the post path puts it at the
top level as intended. -/
theorem head_auth_header_nested (ua apiKey : String) :
    lookupH (headRequestHeaders ua apiKey) "Authorization" = none ∧
      lookupH (headRequestHeaders ua apiKey) "headers" =
        some (HVal.obj [("Authorization", HVal.str ("Bearer " ++ apiKey))]) ∧
      lookupH (postAuthRequestHeaders ua apiKey) "Authorization" =
        some (HVal.str ("Bearer " ++ apiKey)) := by
  refine ⟨rfl, rfl, rfl⟩

/- ### createBlob (src/index.ts lines 66-121)

The node read stream emits each data event and the end event exactly
once.  The digest promise attaches data and end listeners and resolves
on end, so after it the stream is exhausted; listeners attached later
receive nothing and never see end.  streamPipeBody therefore returns
none (a body that never delivers bytes and never closes) for an
already-ended stream.  The sha256 hash itself is the platform crypto
primitive, abstracted as a function parameter. -/

structure NodeStream where
  chunks : List (List Nat)
  ended : Bool
deriving DecidableEq, Repr

/-- Consume the stream to feed the hash: all data, then end. -/
def streamReadAll (s : NodeStream) : List Nat × NodeStream :=
  (if s.ended then [] else catLists s.chunks, { s with ended := true })

/-- Wrap the stream as an upload body: some bytes if the stream still
has its events to emit, none (never delivers, never closes) if it has
already ended. -/
def streamPipeBody (s : NodeStream) : Option (List Nat) × NodeStream :=
  (if s.ended then none else some (catLists s.chunks), { s with ended := true })

structure BlobEnv where
  streamingSupported : Bool
  file : NodeStream
  probeResp : Resp
  uploadResp : Resp
deriving DecidableEq, Repr

structure UploadCall where
  body : Option (List Nat)
  contentType : String
deriving DecidableEq, Repr

inductive BlobOutcome where
  | envErr (msg : String)
  | ok (digest : String)
  | err (e : RespErr)
deriving DecidableEq, Repr

structure BlobTrace where
  upload : Option UploadCall
  outcome : BlobOutcome
deriving DecidableEq, Repr

/-- createBlob: digest the file stream, probe for the blob, and on a
probe failure whose message contains the substring 404 upload the
(already exhausted) stream as the request body; any other probe
failure is rethrown. -/
def createBlob (hash : List Nat → String) (env : BlobEnv) : BlobTrace :=
  if env.streamingSupported then
    let r1 := streamReadAll env.file
    let digest := "sha256:" ++ hash r1.1
    match checkOk env.probeResp with
    | none => { upload := none, outcome := BlobOutcome.ok digest }
    | some e =>
      if strIncludes "404" e.error then
        let r2 := streamPipeBody r1.2
        let call : UploadCall :=
          { body := r2.1, contentType := "application/octet-stream" }
        match checkOk env.uploadResp with
        | none => { upload := some call, outcome := BlobOutcome.ok digest }
        | some e2 => { upload := some call, outcome := BlobOutcome.err e2 }
      else { upload := none, outcome := BlobOutcome.err e }
  else
    { upload := none,
      outcome := BlobOutcome.envErr
        "Streaming uploads are not supported in this environment." }

/-- A plain 200 response. -/
def respOk200 : Resp :=
  { ok := true, status := 200, statusText := "OK", ctJson := false,
    jsonBody := none, textBody := none }

/-- A plain 404 response with no message body. -/
def resp404Plain : Resp :=
  { ok := false, status := 404, statusText := "Not Found", ctJson := false,
    jsonBody := none, textBody := none }

/-- Environment for the C2 failing input: a three-byte file whose
existence probe reports a plain 404. -/
def c2Env : BlobEnv :=
  { streamingSupported := true,
    file := { chunks := [[1, 2], [3]], ended := false },
    probeResp := resp404Plain, uploadResp := respOk200 }

/-- C2 (code bug): on a 404 probe the source re-uses the file stream
it has already exhausted while computing the digest, instead of
re-opening the file; the POST upload is issued, but its body never
receives the file's bytes (and never closes), even though the file
content is non-empty. -/
theorem createBlob_reupload_body_never_delivered :
    (createBlob (fun _ => "h") c2Env).upload =
        some { body := none, contentType := "application/octet-stream" } ∧
      catLists c2Env.file.chunks = [1, 2, 3] ∧
      c2Env.probeResp.status = 404 := by
  refine ⟨rfl, rfl, rfl⟩

/-- Environment for the C5 counterexample: the probe is an HTTP 404
whose JSON body supplies the message blob not found, so the message
does not contain the substring 404. -/
def c5Env : BlobEnv :=
  { streamingSupported := true,
    file := { chunks := [[1, 2], [3]], ended := false },
    probeResp :=
      { ok := false, status := 404, statusText := "Not Found", ctJson := true,
        jsonBody := some (some ("blob not found")), textBody := none },
    uploadResp := respOk200 }

/-- C5 (counterexample): a probe failure with HTTP status 404 whose
server-supplied message is blob not found is propagated unchanged and
triggers no upload, because the source tests e.message.includes(404)
rather than the status code. -/
theorem createBlob_404_json_message_cex :
    c5Env.probeResp.status = 404 ∧
      checkOk c5Env.probeResp =
        some { error := "blob not found", status_code := 404 } ∧
      (createBlob (fun _ => "h") c5Env).upload = none ∧
      (createBlob (fun _ => "h") c5Env).outcome =
        BlobOutcome.err { error := "blob not found", status_code := 404 } := by
  refine ⟨rfl, rfl, by decide, by decide⟩

/-- C5 (amended): createBlob keys the upload decision on the error
message text, not the HTTP status: a successful probe uploads nothing
and returns the digest; a probe failure whose checkOk message contains
the substring 404 triggers the upload attempt; every other probe
failure is propagated unchanged with no upload issued. -/
theorem createBlob_probe_amended (hash : List Nat → String) (env : BlobEnv)
    (hs : env.streamingSupported = true) :
    (checkOk env.probeResp = none →
      (createBlob hash env).upload = none ∧
        (createBlob hash env).outcome =
          BlobOutcome.ok ("sha256:" ++ hash (streamReadAll env.file).1)) ∧
    (∀ e, checkOk env.probeResp = some e →
      strIncludes "404" e.error = false →
      (createBlob hash env).upload = none ∧
        (createBlob hash env).outcome = BlobOutcome.err e) ∧
    (∀ e, checkOk env.probeResp = some e →
      strIncludes "404" e.error = true →
      (createBlob hash env).upload.isSome = true) := by
  refine ⟨?_, ?_, ?_⟩
  · intro hok
    simp [createBlob, hs, hok]
  · intro e he hinc
    simp [createBlob, hs, he, hinc]
  · intro e he hinc
    cases hu : checkOk env.uploadResp <;>
      simp [createBlob, hs, he, hinc, hu]

/-- Environment for the C5 witness: a 500 probe failure. -/
def c5WEnv : BlobEnv :=
  { streamingSupported := true,
    file := { chunks := [[9]], ended := false },
    probeResp :=
      { ok := false, status := 500, statusText := "Internal Server Error",
        ctJson := false, jsonBody := none, textBody := none },
    uploadResp := respOk200 }

theorem createBlob_probe_amended_wit :
    (createBlob (fun _ => "h") c5WEnv).upload = none ∧
      (createBlob (fun _ => "h") c5WEnv).outcome =
        BlobOutcome.err
          { error := "Error 500: Internal Server Error", status_code := 500 } := by
  exact (createBlob_probe_amended (fun _ => "h") c5WEnv rfl).2.1
    { error := "Error 500: Internal Server Error", status_code := 500 }
    (by decide) (by decide)

/- ### delete and copy (src/browser.ts lines 199-211)

Both await the transport call (which raises via checkOk on failure)
and then return the client-side constant status success, ignoring the
response body entirely. -/

structure StatusResponse where
  status : String
deriving DecidableEq, Repr

def deleteOp (resp : Resp) : Except RespErr StatusResponse :=
  match checkOk resp with
  | some e => Except.error e
  | none => Except.ok { status := "success" }

def copyOp (resp : Resp) : Except RespErr StatusResponse :=
  match checkOk resp with
  | some e => Except.error e
  | none => Except.ok { status := "success" }

/-- C10 (confirmed): for every response whose HTTP request succeeded,
delete and copy return exactly the client-side constant status
success, whatever the response body holds. -/
theorem delete_copy_fixed_success (r : Resp) (h : r.ok = true) :
    deleteOp r = Except.ok { status := "success" } ∧
      copyOp r = Except.ok { status := "success" } := by
  simp [deleteOp, copyOp, checkOk, h]

theorem delete_copy_fixed_success_wit :
    deleteOp
        { ok := true, status := 200, statusText := "OK", ctJson := true,
          jsonBody := some (some ("server says otherwise")),
          textBody := some ("ignored") } =
      Except.ok { status := "success" } := by
  exact (delete_copy_fixed_success
    { ok := true, status := 200, statusText := "OK", ctJson := true,
      jsonBody := some (some ("server says otherwise")),
      textBody := some ("ignored") } rfl).1

/- ### parseModelfile and resolvePath (src/index.ts lines 28-64)

The rewriter splits the definition on newlines; for each line it takes
the first two space-delimited segments as command and args (the JS
split with limit 2 plus destructuring), and when the uppercased
command is FROM or ADAPTER it resolves the trimmed args and replaces
the line by command, a space, and at-sign plus the blob digest when
the resolved path exists, or by command, a space and args otherwise;
any other line is pushed through unchanged; the lines are re-joined
with newlines.  Path resolution and filesystem access are modelled
without dot-segment normalization; the blob digest returned by
createBlob for a resolved path is abstracted as an environment
function. -/

/-- Model of JS String.prototype.trim. -/
def trimL (l : List Char) : List Char :=
  ((l.dropWhile Char.isWhitespace).reverse.dropWhile Char.isWhitespace).reverse

/-- node path.join for the homedir case (simplified: concatenation
with a single separator, no normalization). -/
def joinPath (a b : List Char) : List Char :=
  if b = [] then a
  else if b.headD ' ' = '/' then a ++ b
  else a ++ '/' :: b

/-- node path.resolve(base, p) (simplified likewise). -/
def resolveAgainst (base p : List Char) : List Char :=
  if p = [] then base
  else if p.headD ' ' = '/' then p
  else base ++ '/' :: p

structure MFEnv where
  homedir : List Char
  fileExists : List Char → Bool
  blobDigest : List Char → List Char

/-- resolvePath: a path starting with a tilde is joined to the home
directory after dropping the tilde; anything else resolves against the
modelfile directory. -/
def resolvePath (env : MFEnv) (inputPath mfDir : List Char) : List Char :=
  if inputPath.headD ' ' = '~' then joinPath env.homedir (inputPath.drop 1)
  else resolveAgainst mfDir inputPath

/-- One iteration of the parseModelfile loop.  none models the
TypeError thrown by args.trim() when a FROM/ADAPTER line contains no
space at all (args is undefined). -/
def rewriteLine (env : MFEnv) (mfDir line : List Char) : Option (List Char) :=
  if ((splitOnCharL ' ' line).headD []).map Char.toUpper = ("FROM").data ∨
      ((splitOnCharL ' ' line).headD []).map Char.toUpper = ("ADAPTER").data then
    match ((splitOnCharL ' ' line).drop 1).head? with
    | none => none
    | some args =>
      if env.fileExists (resolvePath env (trimL args) mfDir) then
        some ((splitOnCharL ' ' line).headD [] ++ ' ' :: '@' ::
          env.blobDigest (resolvePath env (trimL args) mfDir))
      else some ((splitOnCharL ' ' line).headD [] ++ ' ' :: args)
  else some line

/-- parseModelfile: rewrite every newline-separated line and re-join. -/
def parseModelfile (env : MFEnv) (modelfile mfDir : List Char) :
    Option (List Char) :=
  ((splitOnCharL '\n' modelfile).mapM (rewriteLine env mfDir)).map (joinSepL '\n')

/-- Environment for the C6 counterexample: no file exists anywhere. -/
def c6Env : MFEnv :=
  { homedir := ("/home/u").data,
    fileExists := fun _ => false,
    blobDigest := fun _ => [] }

/-- C6 (counterexample): the directive line FROM a b, whose argument
does not resolve to an existing file, is rewritten to FROM a: the
source splits with limit 2 and reconstructs the line as command plus
first argument token, dropping everything after it, so the line does
not pass through unchanged as the claim requires. -/
theorem parseModelfile_truncates_cex :
    parseModelfile c6Env (("FROM a b").data) (("/base").data) =
        some (("FROM a").data) ∧
      (("FROM a").data : List Char) ≠ ("FROM a b").data := by
  refine ⟨by decide, by decide⟩

/-- C6 (amended): parseModelfile processes the newline-separated lines
independently and in order; a line whose first space-delimited token
does not uppercase to FROM or ADAPTER (including blank lines) passes
through unchanged; a directive line consisting of the keyword, one
space and a single argument token becomes keyword space at-sign digest
when the trimmed argument (a leading tilde resolved against the home
directory, otherwise against the base directory) is an existing file,
and passes through unchanged otherwise; on a directive line with more
than one argument token everything after the first token is dropped. -/
theorem parseModelfile_amended (env : MFEnv) (mfDir : List Char) :
    (∀ lines : List (List Char), lines ≠ [] → (∀ l ∈ lines, '\n' ∉ l) →
      parseModelfile env (joinSepL '\n' lines) mfDir =
        (lines.mapM (rewriteLine env mfDir)).map (joinSepL '\n')) ∧
    (∀ line : List Char,
      ((splitOnCharL ' ' line).headD []).map Char.toUpper ≠ ("FROM").data →
      ((splitOnCharL ' ' line).headD []).map Char.toUpper ≠ ("ADAPTER").data →
      rewriteLine env mfDir line = some line) ∧
    (∀ cmd arg : List Char,
      (cmd.map Char.toUpper = ("FROM").data ∨
        cmd.map Char.toUpper = ("ADAPTER").data) →
      ' ' ∉ cmd → ' ' ∉ arg →
      (env.fileExists (resolvePath env (trimL arg) mfDir) = false →
        rewriteLine env mfDir (cmd ++ ' ' :: arg) = some (cmd ++ ' ' :: arg)) ∧
      (env.fileExists (resolvePath env (trimL arg) mfDir) = true →
        rewriteLine env mfDir (cmd ++ ' ' :: arg) =
          some (cmd ++ ' ' :: '@' ::
            env.blobDigest (resolvePath env (trimL arg) mfDir)))) ∧
    (∀ cmd a rest2 : List Char,
      (cmd.map Char.toUpper = ("FROM").data ∨
        cmd.map Char.toUpper = ("ADAPTER").data) →
      ' ' ∉ cmd → ' ' ∉ a →
      rewriteLine env mfDir (cmd ++ ' ' :: a ++ ' ' :: rest2) =
        rewriteLine env mfDir (cmd ++ ' ' :: a)) := by
  refine ⟨?_, ?_, ?_, ?_⟩
  · intro lines hne hnl
    unfold parseModelfile
    rw [splitOnCharL_joinSepL '\n' lines hne hnl]
  · intro line h1 h2
    unfold rewriteLine
    rw [if_neg (not_or.mpr ⟨h1, h2⟩)]
  · intro cmd arg hdir hcmd harg
    have hsegs : splitOnCharL ' ' (cmd ++ ' ' :: arg) = [cmd, arg] := by
      rw [splitOnCharL_sep_cons ' ' cmd arg hcmd,
        splitOnCharL_of_not_mem ' ' arg harg]
    constructor
    · intro hex
      unfold rewriteLine
      rw [hsegs]
      simp only [List.headD_cons, List.drop, List.head?]
      rw [if_pos (by simpa using hdir)]
      simp [hex]
    · intro hex
      unfold rewriteLine
      rw [hsegs]
      simp only [List.headD_cons, List.drop, List.head?]
      rw [if_pos (by simpa using hdir)]
      simp [hex]
  · intro cmd a rest2 hdir hcmd ha
    have hsegs1 : splitOnCharL ' ' (cmd ++ ' ' :: a ++ ' ' :: rest2) =
        cmd :: a :: splitOnCharL ' ' rest2 := by
      rw [List.append_assoc, List.cons_append,
        splitOnCharL_sep_cons ' ' cmd _ hcmd,
        splitOnCharL_sep_cons ' ' a rest2 ha]
    have hsegs2 : splitOnCharL ' ' (cmd ++ ' ' :: a) = [cmd, a] := by
      rw [splitOnCharL_sep_cons ' ' cmd a hcmd,
        splitOnCharL_of_not_mem ' ' a ha]
    unfold rewriteLine
    rw [hsegs1, hsegs2]
    simp only [List.headD_cons, List.drop, List.head?]
    split_ifs <;> rfl

/-- Environment for the C6 witness, realizing the spec's own example:
only the resolved ./model.bin exists and its blob digest is fixed. -/
def c6WEnv : MFEnv :=
  { homedir := ("/home/u").data,
    fileExists := fun p => decide (p = ("/base/./model.bin").data),
    blobDigest := fun _ => ("sha256:abc").data }

theorem parseModelfile_amended_wit :
    parseModelfile c6WEnv
        (("FROM ./model.bin\nPARAMETER x 1\nADAPTER ~/a.bin").data)
        (("/base").data) =
      some (("FROM @sha256:abc\nPARAMETER x 1\nADAPTER ~/a.bin").data) := by
  have htext : ("FROM ./model.bin\nPARAMETER x 1\nADAPTER ~/a.bin").data =
      joinSepL '\n' [("FROM ./model.bin").data, ("PARAMETER x 1").data,
        ("ADAPTER ~/a.bin").data] := by decide
  rw [htext]
  have h := (parseModelfile_amended c6WEnv (("/base").data)).1
    [("FROM ./model.bin").data, ("PARAMETER x 1").data, ("ADAPTER ~/a.bin").data]
    (by decide) (by decide)
  rw [h]
  decide

/- ### formatHost (src/utils.ts lines 372-405)

The WHATWG URL constructor is a platform primitive; it is modelled
for the inputs formatHost feeds it: scheme :// authority [/path],
where the authority is hostname[:port].  The model validates a
lowercase alphabetic scheme and a hostname of lowercase letters,
digits, dots and dashes (other inputs make the constructor throw,
modelled as none), elides a port equal to the scheme default for http
and https, and reports pathname / when no path is present.  A none
result of formatHost models the exception propagating to the caller. -/

def isAlphaLowerC (c : Char) : Bool := decide ('a' ≤ c ∧ c ≤ 'z')

def isDigitC (c : Char) : Bool := decide ('0' ≤ c ∧ c ≤ '9')

def isHostCharC (c : Char) : Bool :=
  isAlphaLowerC c || isDigitC c || decide (c = '.') || decide (c = '-')

/-- Split an input at the first occurrence of colon-slash-slash;
none when the input has no such occurrence (this doubles as the model
of host.includes of that substring). -/
def splitScheme : List Char → Option (List Char × List Char)
  | [] => none
  | c :: rest =>
    if c = ':' ∧ rest.take 2 = ['/', '/'] then some ([], rest.drop 2)
    else
      match splitScheme rest with
      | some (a, b) => some (c :: a, b)
      | none => none

/-- Authority part (up to the first slash) and the raw path rest. -/
def takeAuthority : List Char → List Char × List Char
  | [] => ([], [])
  | c :: r =>
    if c = '/' then ([], c :: r)
    else ((takeAuthority r).1.cons c, (takeAuthority r).2)

/-- Split the authority at its last colon: hostname and optional raw
port string. -/
def splitLastColon (auth : List Char) : List Char × Option (List Char) :=
  match auth.reverse.dropWhile (fun c => decide (c ≠ ':')) with
  | [] => (auth, none)
  | _ :: hostRev =>
    (hostRev.reverse, some (auth.reverse.takeWhile (fun c => decide (c ≠ ':'))).reverse)

def digitsToNat (ds : List Char) : Nat :=
  ds.foldl (fun acc c => acc * 10 + (c.toNat - 48)) 0

def natDigits (n : Nat) : List Char := (Nat.repr n).data

structure URLModel where
  scheme : List Char
  hostname : List Char
  port : Option Nat
  pathname : List Char
deriving DecidableEq, Repr

/-- Default port of the special schemes the claims exercise. -/
def schemeDefaultPort (scheme : List Char) : Option Nat :=
  if scheme = ("http").data then some 80
  else if scheme = ("https").data then some 443
  else none

/-- URL port parsing: absent or empty means no port; a numeric port
equal to the scheme default is elided (url.port is the empty string);
a non-numeric port makes the constructor throw. -/
def parsePort (scheme : List Char) (portStr : Option (List Char)) :
    Option (Option Nat) :=
  match portStr with
  | none => some none
  | some [] => some none
  | some ds =>
    if ds.all isDigitC then
      if some (digitsToNat ds) = schemeDefaultPort scheme then some none
      else some (some (digitsToNat ds))
    else none

/-- Model of new URL for formatHost's inputs. -/
def parseURL (s : List Char) : Option URLModel :=
  match splitScheme s with
  | none => none
  | some (scheme, rest) =>
    if scheme = [] ∨ scheme.all isAlphaLowerC = false then none
    else
      match parsePort scheme (splitLastColon (takeAuthority rest).1).2 with
      | none => none
      | some port =>
        if (splitLastColon (takeAuthority rest).1).1 = [] ∨
            (splitLastColon (takeAuthority rest).1).1.all isHostCharC = false then
          none
        else
          some { scheme := scheme,
                 hostname := (splitLastColon (takeAuthority rest).1).1,
                 port := port,
                 pathname := if (takeAuthority rest).2 = [] then ['/']
                             else (takeAuthority rest).2 }

/-- Preprocessing of formatHost before the URL constructor: a host
starting with a colon is expanded against loopback and counts as
explicit; otherwise explicitness is the colon-slash-slash test, and a
non-explicit host gets the http scheme prepended.  Returns the string
handed to the URL constructor and the isExplicitProtocol flag. -/
def hostPre (host : List Char) : List Char × Bool :=
  if host.head? = some ':' then (("http://127.0.0.1").data ++ host, true)
  else if (splitScheme host).isSome then (host, true)
  else (("http://").data ++ host, false)

/-- The port string appearing in the formatted output. -/
def portName (explicit : Bool) (u : URLModel) : List Char :=
  match u.port with
  | some p => natDigits p
  | none =>
    if explicit = false then ("11434").data
    else if u.scheme = ("https").data then ("443").data else ("80").data

/-- Remove one trailing slash, as the source's endsWith/slice pair. -/
def stripSlash (f : List Char) : List Char :=
  if f.getLast? = some '/' then f.dropLast else f

/-- The formatted host assembled from the parsed URL. -/
def buildFormatted (explicit : Bool) (u : URLModel) : List Char :=
  stripSlash (u.scheme ++ ("://").data ++ u.hostname ++
    ':' :: portName explicit u ++ u.pathname)

/-- formatHost: empty input maps to the fixed loopback default, any
other input is preprocessed, URL-parsed (none models the constructor
throwing) and reassembled. -/
def formatHost (host : List Char) : Option (List Char) :=
  if host = [] then some (("http://127.0.0.1:1646").data)
  else
    match parseURL (hostPre host).1 with
    | none => none
    | some u => some (buildFormatted (hostPre host).2 u)

/-- C8 (counterexample): the input http://h// is accepted by the URL
constructor with pathname a double slash; formatHost strips only one
trailing slash, so the returned string ends with a slash, refuting the
claim that every returned string has no trailing slash. -/
theorem formatHost_trailing_slash_cex :
    formatHost (("http://h//").data) = some (("http://h:80/").data) ∧
      (("http://h:80/").data).getLast? = some '/' := by
  refine ⟨by decide, by decide⟩

theorem hostChar_ne_colon (c : Char) (h : isHostCharC c = true) : c ≠ ':' := by
  intro hc
  subst hc
  exact absurd h (by decide)

theorem hostChar_ne_slash (c : Char) (h : isHostCharC c = true) : c ≠ '/' := by
  intro hc
  subst hc
  exact absurd h (by decide)

theorem alphaLower_ne_colon (c : Char) (h : isAlphaLowerC c = true) : c ≠ ':' := by
  intro hc
  subst hc
  exact absurd h (by decide)

theorem splitScheme_none (l : List Char) (h : ∀ c ∈ l, c ≠ ':') :
    splitScheme l = none := by
  induction l with
  | nil => rfl
  | cons c rest ih =>
    have hc : ¬ (c = ':' ∧ rest.take 2 = ['/', '/']) :=
      fun hh => h c (by simp) hh.1
    simp only [splitScheme, if_neg hc, ih (fun x hx => h x (by simp [hx]))]

theorem splitScheme_before (sch h : List Char) (hcolon : ∀ c ∈ sch, c ≠ ':') :
    splitScheme (sch ++ ':' :: '/' :: '/' :: h) = some (sch, h) := by
  induction sch with
  | nil => rfl
  | cons c rest ih =>
    have hc : ¬ (c = ':' ∧ ((rest ++ ':' :: '/' :: '/' :: h).take 2 = ['/', '/'])) :=
      fun hh => hcolon c (by simp) hh.1
    simp only [List.cons_append, splitScheme, List.append_eq, if_neg hc,
      ih (fun x hx => hcolon x (by simp [hx]))]

theorem takeAuthority_no_slash (l : List Char) (h : ∀ c ∈ l, c ≠ '/') :
    takeAuthority l = (l, []) := by
  induction l with
  | nil => rfl
  | cons c r ih =>
    simp only [takeAuthority, if_neg (h c (by simp)),
      ih (fun x hx => h x (by simp [hx]))]

theorem dropWhile_all (p : Char → Bool) (m : List Char)
    (h : ∀ c ∈ m, p c = true) : m.dropWhile p = [] := by
  induction m with
  | nil => rfl
  | cons c cs ih =>
    rw [List.dropWhile_cons, if_pos (h c (by simp))]
    exact ih (fun x hx => h x (by simp [hx]))

theorem splitLastColon_no_colon (l : List Char) (h : ∀ c ∈ l, c ≠ ':') :
    splitLastColon l = (l, none) := by
  unfold splitLastColon
  rw [dropWhile_all _ _ (fun c hc =>
    decide_eq_true (h c (List.mem_reverse.mp hc)))]

theorem lastOfAppend (a b : List Char) (hb : b ≠ []) :
    (a ++ b).getLast? = b.getLast? := by
  induction a with
  | nil => rfl
  | cons c a ih =>
    rw [List.cons_append]
    cases hab : a ++ b with
    | nil =>
      have : b = [] := by
        rcases List.append_eq_nil.mp hab with ⟨h1, h2⟩
        exact h2
      exact absurd this hb
    | cons x xs =>
      rw [hab] at ih
      rw [List.getLast?_cons_cons, ih]

theorem stripSlash_concat (X : List Char) : stripSlash (X ++ ['/']) = X := by
  simp [stripSlash, List.getLast?_concat, List.dropLast_concat]

theorem parseURL_simple (sch h : List Char) (hs : sch ≠ [])
    (hal : sch.all isAlphaLowerC = true) (hcolon : ∀ c ∈ sch, c ≠ ':')
    (hne : h ≠ []) (hhost : h.all isHostCharC = true) :
    parseURL (sch ++ ':' :: '/' :: '/' :: h) =
      some { scheme := sch, hostname := h, port := none, pathname := ['/'] } := by
  have hmem : ∀ c ∈ h, isHostCharC c = true := List.all_eq_true.mp hhost
  have hnoslash : ∀ c ∈ h, c ≠ '/' := fun c hc => hostChar_ne_slash c (hmem c hc)
  have hnocolon : ∀ c ∈ h, c ≠ ':' := fun c hc => hostChar_ne_colon c (hmem c hc)
  have hsplit := splitScheme_before sch h hcolon
  have hta : takeAuthority h = (h, []) := takeAuthority_no_slash h hnoslash
  have hlc : splitLastColon h = (h, none) := splitLastColon_no_colon h hnocolon
  simp only [parseURL, hsplit, hta, hlc]
  rw [if_neg (by simp [hs, hal])]
  simp only [parsePort]
  rw [if_neg (by simp [hne, hhost])]
  simp

theorem hostPre_schemeless (h : List Char) (hne : h ≠ [])
    (hcolon : ∀ c ∈ h, c ≠ ':') :
    hostPre h = (("http://").data ++ h, false) := by
  have hhead : ¬ h.head? = some ':' := by
    cases h with
    | nil => simp
    | cons c t => simpa using hcolon c (by simp)
  have hnone : splitScheme h = none := splitScheme_none h hcolon
  simp [hostPre, hhead, hnone]

theorem hostPre_scheme (sch h : List Char) (hs : sch ≠ [])
    (hcolon : ∀ c ∈ sch, c ≠ ':') :
    hostPre (sch ++ ':' :: '/' :: '/' :: h) =
      (sch ++ ':' :: '/' :: '/' :: h, true) := by
  have hsplit := splitScheme_before sch h hcolon
  cases sch with
  | nil => exact absurd rfl hs
  | cons c t =>
    have hc : ¬ c = ':' := hcolon c (by simp)
    have hsplit2 : splitScheme (c :: (t ++ ':' :: '/' :: '/' :: h)) =
        some (c :: t, h) := by simpa using hsplit
    simp [hostPre, hc, hsplit2]

/-- C8 (amended): formatHost maps the empty string to the fixed
loopback default with port 1646; expands a bare colon-port form
against loopback; normalizes an https host without port to port 443;
gives a bare hostname the http scheme and port 11434; and gives a
scheme-qualified host without port the port 443 for https and 80 for
any other scheme, with no trailing slash in each of these results.
Inputs the URL constructor rejects propagate its exception, and only
one trailing slash is stripped, so a path ending in a double slash
retains one. -/
theorem formatHost_amended :
    formatHost [] = some (("http://127.0.0.1:1646").data) ∧
    formatHost ((":9999").data) = some (("http://127.0.0.1:9999").data) ∧
    formatHost (("https://example.com").data) =
      some (("https://example.com:443").data) ∧
    (∀ h : List Char, h ≠ [] → h.all isHostCharC = true →
      formatHost h = some ((("http://").data ++ h) ++ (":11434").data) ∧
        ((("http://").data ++ h) ++ (":11434").data).getLast? = some '4') ∧
    (∀ sch h : List Char, sch ≠ [] → sch.all isAlphaLowerC = true →
      h ≠ [] → h.all isHostCharC = true →
      formatHost (sch ++ ':' :: '/' :: '/' :: h) =
        some ((sch ++ ':' :: '/' :: '/' :: h) ++ ':' ::
          (if sch = ("https").data then ("443").data else ("80").data)) ∧
        ((sch ++ ':' :: '/' :: '/' :: h) ++ ':' ::
          (if sch = ("https").data then ("443").data else ("80").data)).getLast? ≠
          some '/') := by
  refine ⟨by decide, by decide, by decide, ?_, ?_⟩
  · intro h hne hhost
    have hmem : ∀ c ∈ h, isHostCharC c = true := List.all_eq_true.mp hhost
    have hcolon : ∀ c ∈ h, c ≠ ':' := fun c hc => hostChar_ne_colon c (hmem c hc)
    have hpre := hostPre_schemeless h hne hcolon
    have hp2 : parseURL (("http://").data ++ h) =
        some { scheme := ("http").data, hostname := h, port := none,
               pathname := ['/'] } :=
      parseURL_simple (("http").data) h (by decide) (by decide) (by decide)
        hne hhost
    constructor
    · unfold formatHost
      rw [if_neg hne, hpre]
      simp only [hp2]
      simp only [buildFormatted, portName]
      rw [stripSlash_concat]
      simp [List.append_assoc]
    · rw [lastOfAppend _ _ (by decide)]
      decide
  · intro sch h hs hal hne hhost
    have hcolon : ∀ c ∈ sch, c ≠ ':' := fun c hc =>
      alphaLower_ne_colon c (List.all_eq_true.mp hal c hc)
    have hpre := hostPre_scheme sch h hs hcolon
    have hp2 := parseURL_simple sch h hs hal hcolon hne hhost
    constructor
    · unfold formatHost
      rw [if_neg (by simp), hpre]
      simp only [hp2]
      simp only [buildFormatted, portName]
      rw [stripSlash_concat]
      simp [List.append_assoc]
    · rw [lastOfAppend _ _ (by simp)]
      split_ifs <;> decide

theorem formatHost_amended_wit :
    formatHost (("myhost").data) = some (("http://myhost:11434").data) := by
  have h := formatHost_amended.2.2.2.1 (("myhost").data) (by decide) (by decide)
  exact h.1.trans (by decide)
